import Mathlib

/-!
Verification of the dividend-dashboard data fetcher
(`src/fetch_dividends.py`, function `fetch_all_data`).

The script is embedded shallowly:
* machine floats become exact rationals (`ℚ`); Python's `round(x, n)`
  (round-half-to-even) becomes `roundTo n`;
* the quote dictionary returned by the data provider becomes the `Quote`
  structure, with `Option` for fields that may be missing or null
  (Python `info.get(k, 0) or 0` becomes `Option.getD · 0`);
* pandas timestamps become the `Date` structure ordered lexicographically;
* the per-ticker body of the loop becomes `recOf`; a raised exception while
  fetching a ticker becomes an `Except.error` item, caught by `step`;
* Python dicts (`stocks_history`, `annual_divs`, the names lookup) become
  association lists updated by `insertAssoc` (update-in-place keeps the
  original key position, as Python dicts do);
* `list.sort(key=..., reverse=True)` becomes the stable insertion sort
  `sortDesc`;
* the five sequential unguarded `with open(...)`/`json.dump` statements
  become `runEmission`, which stops at the first failing write exactly as
  an uncaught Python exception would.
-/

/-- Round-half-to-even of a rational to an integer, the semantics of
Python's builtin `round` on exact values. -/
def rnd (q : ℚ) : ℤ :=
  let f : ℤ := ⌊q⌋
  let r : ℚ := q - f
  if r < 1/2 then f
  else if 1/2 < r then f + 1
  else if 2 ∣ f then f else f + 1

/-- Python `round(q, n)`: round to `n` decimal places, half to even. -/
def roundTo (n : ℕ) (q : ℚ) : ℚ :=
  (rnd (q * 10 ^ n) : ℚ) / 10 ^ n

/-- A calendar date, ordered lexicographically (year, month, day). -/
structure Date where
  y : ℕ
  m : ℕ
  d : ℕ
deriving DecidableEq, Repr

/-- Date comparison used for the pandas label slice `divs[h.index[0]:h.index[-1]]`,
which is inclusive at both ends. -/
def Date.leb (a b : Date) : Bool :=
  a.y < b.y || (a.y = b.y && (a.m < b.m || (a.m = b.m && a.d ≤ b.d)))

/-- The quote fields read from `stock.info`. `none` models a key that is
missing from the dictionary or whose value is `None`. -/
structure Quote where
  dividendYield : Option ℚ
  dividendRate : Option ℚ
  currentPrice : Option ℚ
  regularMarketPrice : Option ℚ
  payout : Option ℚ        -- the payoutRatio key of the quote dictionary
  marketCap : Option ℚ
  sector : Option String
  shortName : Option String
deriving DecidableEq, Repr

/-- `info.get("dividendYield", 0) or 0` (line 49). -/
def reportedYield (q : Quote) : ℚ := q.dividendYield.getD 0

/-- `info.get("dividendRate", 0) or 0` (line 50). -/
def rateOf (q : Quote) : ℚ := q.dividendRate.getD 0

/-- `info.get("currentPrice") or info.get("regularMarketPrice", 0) or 0`
(line 51): a present but zero `currentPrice` is falsy and falls through. -/
def priceOf (q : Quote) : ℚ :=
  match q.currentPrice with
  | some p => if p = 0 then q.regularMarketPrice.getD 0 else p
  | none => q.regularMarketPrice.getD 0

/-- Yield normalization, lines 54-58: prefer `rate / price` when both are
positive; otherwise, a reported yield above 0.20 is treated as a percent
and divided by 100. -/
def normYield (q : Quote) : ℚ :=
  let dy := reportedYield q
  let dr := rateOf q
  let p := priceOf q
  if 0 < dr ∧ 0 < p then dr / p
  else if 1/5 < dy then dy / 100
  else dy

/-- Association-list insert modelling Python dict assignment `m[k] = v`:
an existing key keeps its position and gets the new value, a new key is
appended. -/
def insertAssoc {κ α : Type} [DecidableEq κ] (k : κ) (v : α) :
    List (κ × α) → List (κ × α)
  | [] => [(k, v)]
  | (k', v') :: rest =>
    if k' = k then (k', v) :: rest else (k', v') :: insertAssoc k v rest

/-- Association-list lookup modelling Python dict access. -/
def lookupA {κ α : Type} [DecidableEq κ] (k : κ) : List (κ × α) → Option α
  | [] => none
  | (k', v) :: rest => if k' = k then some v else lookupA k rest

/-- Stable insert for a descending sort by a rational key. -/
def insertDesc {α : Type} (key : α → ℚ) (a : α) : List α → List α
  | [] => [a]
  | b :: l => if key b ≤ key a then a :: b :: l else b :: insertDesc key a l

/-- Stable descending sort by a rational key, modelling
`sorted(..., key=..., reverse=True)` and `list.sort(key=..., reverse=True)`. -/
def sortDesc {α : Type} (key : α → ℚ) : List α → List α
  | [] => []
  | a :: l => insertDesc key a (sortDesc key l)

/-- Stable insert for an ascending sort of naturals. -/
def insertAsc (a : ℕ) : List ℕ → List ℕ
  | [] => [a]
  | b :: l => if a ≤ b then a :: b :: l else b :: insertAsc a l

/-- Ascending sort of naturals, modelling Python `sorted` on years/months. -/
def sortAsc : List ℕ → List ℕ
  | [] => []
  | a :: l => insertAsc a (sortAsc l)

/-- One period's entry of the `totalReturns` map (lines 126-130). -/
structure PeriodReturn where
  priceReturn : ℚ
  divReturn : ℚ
  totalReturn : ℚ
deriving DecidableEq, Repr

deriving instance DecidableEq for Except

/-- The raw data fetched for one ticker: the quote dictionary, the
1-year and 5-year histories fetched at lines 69 and 77 (whose failure
aborts the whole ticker), the dividend series (line 88), and the three
per-period history fetches of line 118, each of which may fail on its
own (`Except.error`), in which case only that period is skipped. -/
structure TickerData where
  info : Quote
  hist1y : List (Date × ℚ)
  hist5y : List (Date × ℚ)
  divs : List (Date × ℚ)
  per1y : Except String (List (Date × ℚ))
  per3y : Except String (List (Date × ℚ))
  per5y : Except String (List (Date × ℚ))
deriving DecidableEq

/-- Closing price of the last row of a series, `h["Close"].iloc[-1]`. -/
def lastClose (l : List (Date × ℚ)) : ℚ := ((l.getLast?).map Prod.snd).getD 0

/-- Date of the last row of a series, `h.index[-1]`. -/
def lastDate (l : List (Date × ℚ)) : Date := ((l.getLast?).map Prod.fst).getD ⟨0, 0, 0⟩

/-- One period of the total-return loop, lines 117-132: requires more than
one row; price return is the percent change first→last close, dividend
return is the sum of dividend payments dated within the series' (inclusive)
date range divided by the first close, and the stored total return rounds
the unrounded sum of the two.  A first close of zero raises
`ZeroDivisionError` inside the `try`, so the period is skipped (`none`). -/
def computePeriod (divs : List (Date × ℚ)) : List (Date × ℚ) → Option PeriodReturn
  | [] => none
  | [_] => none
  | x :: y :: rest =>
    let h := x :: y :: rest
    let start := x.2
    if start = 0 then none
    else
      let priceReturn := (lastClose h - start) / start * 100
      let periodDivs := divs.filter fun p => x.1.leb p.1 && p.1.leb (lastDate h)
      let divSum := (periodDivs.map Prod.snd).sum
      let divReturn := divSum / start * 100
      some ⟨roundTo 2 priceReturn, roundTo 2 divReturn,
            roundTo 2 (priceReturn + divReturn)⟩

/-- Assembly of the `total_returns` dict over the three periods in order
(lines 115-132): a failed fetch or a too-short series contributes no entry. -/
def totalReturnsOf (divs : List (Date × ℚ))
    (p1 p3 p5 : Except String (List (Date × ℚ))) : List (String × PeriodReturn) :=
  (List.foldr (fun lp acc =>
      match lp.2 with
      | Except.ok h =>
        match computePeriod divs h with
        | some pr => (lp.1, pr) :: acc
        | none => acc
      | Except.error _ => acc)
    [] [("1y", p1), ("3y", p3), ("5y", p5)])

/-- `year_return`, lines 70-74: percent change of the 1-year series,
`None` when it has fewer than two rows.  (The source divides numpy floats,
so a first close of 0 would give an infinity; the claims never touch that
case and it is modelled by total-function rational division.) -/
def yearReturnOf : List (Date × ℚ) → Option ℚ
  | [] => none
  | [_] => none
  | x :: y :: rest => some (roundTo 2 ((lastClose (x :: y :: rest) - x.2) / x.2 * 100))

/-- Monthly resample of the 5-year series, lines 79-85: last observed close
per calendar month, rounded to 2 decimals, keyed by (year, month). -/
def monthlyOf (l : List (Date × ℚ)) : List ((ℕ × ℕ) × ℚ) :=
  l.foldl (fun acc p => insertAssoc (p.1.y, p.1.m) (roundTo 2 p.2) acc) []

/-- `annual_divs`, lines 91-102: dividend amounts summed per calendar year,
built by repeated dict update. -/
def annualDivs (divs : List (Date × ℚ)) : List (ℕ × ℚ) :=
  divs.foldl (fun m p => insertAssoc p.1.y ((lookupA p.1.y m).getD 0 + p.2) m) []

/-- Total dividends of a year as read off the `annual_divs` dict. -/
def annualTotalOf (m : List (ℕ × ℚ)) (y : ℕ) : ℚ := (lookupA y m).getD 0

/-- `sorted(annual_divs.keys())`, line 105. -/
def sortedYearsOf (divs : List (Date × ℚ)) : List ℕ :=
  sortAsc ((annualDivs divs).map Prod.fst)

/-- The backward walk of lines 107-112 on the reversed sorted year list:
count adjacent pairs, most recent first, while the later year's total
strictly exceeds the earlier year's; stop at the first non-increase. -/
def streakRev (f : ℕ → ℚ) : List ℕ → ℕ
  | y :: z :: rest => if f z < f y then streakRev f (z :: rest) + 1 else 0
  | _ => 0

/-- `consec_increases`, lines 104-112 (0 when fewer than two distinct
years exist, because the reversed year list then has fewer than two
elements). -/
def consecIncreasesOf (divs : List (Date × ℚ)) : ℕ :=
  streakRev (annualTotalOf (annualDivs divs)) (sortedYearsOf divs).reverse

/-- `div_months`, lines 90-100, sorted at line 141: distinct calendar
months of historical dividend payments, ascending. -/
def divMonthsOf (divs : List (Date × ℚ)) : List ℕ :=
  sortAsc ((divs.map (fun p => p.1.m)).dedup)

/-- `div_history`, lines 89-99: every payment as (date, amount rounded to
4 decimals), in series order. -/
def divHistoryOf (divs : List (Date × ℚ)) : List (Date × ℚ) :=
  divs.map fun p => (p.1, roundTo 4 p.2)

/-- Python `l[-60:]`: the most recent 60 entries. -/
def last60 {α : Type} (l : List α) : List α := l.drop (l.length - 60)

/-- One record of `stocks_basic`, lines 134-144.  The `payout` field is the
emitted `payoutRatio` value. -/
structure Record where
  ticker : String
  name : String
  price : ℚ
  dividendYield : ℚ
  dividendRate : ℚ
  payout : Option ℚ
  marketCap : ℚ
  sector : String
  yearReturn : Option ℚ
  divMonths : List ℕ
  consecIncreases : ℕ
  totalReturns : List (String × PeriodReturn)
deriving DecidableEq

/-- One value of `stocks_history`, lines 146-149. -/
structure HistEntry where
  monthlyPrices : List ((ℕ × ℕ) × ℚ)
  dividends : List (Date × ℚ)
deriving DecidableEq

/-- The whole per-ticker body of the try block, lines 46-149, given data
that fetched without an exception: `none` when the normalized yield is ≤ 0
(the `continue` of line 61), otherwise the basic record and history entry
appended at lines 134-149. -/
def recOf (sym : String) (t : TickerData) : Option (Record × HistEntry) :=
  let q := t.info
  let dy := normYield q
  if dy ≤ 0 then none
  else
    let payoutVal := q.payout.getD 0
    some
      ({ ticker := sym
         name := q.shortName.getD sym
         price := roundTo 2 (priceOf q)
         dividendYield := roundTo 2 (dy * 100)
         dividendRate := roundTo 2 (rateOf q)
         payout := if payoutVal = 0 then none else some (roundTo 1 (payoutVal * 100))
         marketCap := q.marketCap.getD 0
         sector := q.sector.getD "N/A"
         yearReturn := yearReturnOf t.hist1y
         divMonths := divMonthsOf t.divs
         consecIncreases := consecIncreasesOf t.divs
         totalReturns := totalReturnsOf t.divs t.per1y t.per3y t.per5y },
       { monthlyPrices := monthlyOf t.hist5y
         dividends := last60 (divHistoryOf t.divs) })

/-- State accumulated by the main loop: `stocks_basic`, `stocks_history`
and the lines printed by the `except` handler. -/
structure LoopState where
  basics : List Record
  histories : List (String × HistEntry)
  log : List String
deriving DecidableEq

/-- One loop iteration, lines 44-157, for one ticker symbol whose fetch
either produced data or raised (`Except.error`): an exception is caught,
a line naming the ticker is printed and the ticker is skipped; a yield ≤ 0
is skipped silently; otherwise the record is appended to `stocks_basic`
and the history entry stored under the symbol in `stocks_history`. -/
def step (st : LoopState) : String × Except String TickerData → LoopState
  | (sym, Except.error e) =>
    { st with log := st.log ++ ["  Error " ++ sym ++ ": " ++ e] }
  | (sym, Except.ok t) =>
    match recOf sym t with
    | none => st
    | some (r, he) =>
      { basics := st.basics ++ [r]
        histories := insertAssoc sym he st.histories
        log := st.log }

/-- The whole fetch loop over the ticker list, lines 44-157. -/
def runLoop (items : List (String × Except String TickerData)) : LoopState :=
  items.foldl step ⟨[], [], []⟩

/-- `stocks_basic` of a run, stated as a direct recursion (proved equal to
the fold in `runLoop_eq`). -/
def basicsOf : List (String × Except String TickerData) → List Record
  | [] => []
  | (_, Except.error _) :: rest => basicsOf rest
  | (sym, Except.ok t) :: rest =>
    match recOf sym t with
    | none => basicsOf rest
    | some (r, _) => r :: basicsOf rest

/-- The error lines of a run, as a direct recursion. -/
def logOf : List (String × Except String TickerData) → List String
  | [] => []
  | (sym, Except.error e) :: rest => ("  Error " ++ sym ++ ": " ++ e) :: logOf rest
  | (_, Except.ok _) :: rest => logOf rest

/-- `stocks_history` of a run starting from dict `h`, as a direct recursion. -/
def histOf (h : List (String × HistEntry)) :
    List (String × Except String TickerData) → List (String × HistEntry)
  | [] => h
  | (_, Except.error _) :: rest => histOf h rest
  | (sym, Except.ok t) :: rest =>
    match recOf sym t with
    | none => histOf h rest
    | some (_, he) => histOf (insertAssoc sym he h) rest

/-- `stocks_basic.sort(key=..., reverse=True)`, line 159, applied before
any view is built. -/
def yieldSorted (rs : List Record) : List Record :=
  sortDesc (fun r => r.dividendYield) rs

/-- The stocks of `dividend_data.json`, line 164: first 30 of the
yield-sorted list. -/
def viewTop (rs : List Record) : List Record := (yieldSorted rs).take 30

/-- The stocks of `scatter_data.json`, line 167. -/
def viewScatter (rs : List Record) : List Record :=
  (yieldSorted rs).filter fun r => r.yearReturn.isSome

/-- The sort key of line 173:
`x["totalReturns"].get("1y", {}).get("totalReturn", -999)`. -/
def key1y (r : Record) : ℚ :=
  ((lookupA "1y" r.totalReturns).map (fun p => p.totalReturn)).getD (-999)

/-- The stocks of `total_return_data.json`, lines 172-173: records with a
non-empty total-return dict, re-sorted descending by the 1y total return
with sentinel -999. -/
def viewReturns (rs : List Record) : List Record :=
  sortDesc key1y ((yieldSorted rs).filter fun r => !r.totalReturns.isEmpty)

/-- The stocks of `calendar_data.json`, line 184. -/
def viewCalendar (rs : List Record) : List Record :=
  (yieldSorted rs).filter fun r => !r.divMonths.isEmpty

/-- The `tickers` array of `simulator_data.json`, line 180. -/
def simTickers (rs : List Record) : List String :=
  (yieldSorted rs).map fun r => r.ticker

/-- The `names` dict of `simulator_data.json`, line 181. -/
def simNames (rs : List Record) : List (String × String) :=
  (yieldSorted rs).foldl (fun m r => insertAssoc r.ticker r.name m) []

/-- The five output files, in the order they are written (lines 163-186). -/
def emitFiles : List String :=
  ["dividend_data.json", "scatter_data.json", "total_return_data.json",
   "simulator_data.json", "calendar_data.json"]

/-- The emission stage, lines 162-186: file writes run in sequence with no
exception handler, so a failing write (modelled by the predicate `fails`)
aborts everything after it.  Returns the files actually written and whether
the stage ran to completion. -/
def runEmission (fails : String → Bool) : List String → List String × Bool
  | [] => ([], true)
  | f :: rest =>
    if fails f then ([], false)
    else
      let o := runEmission fails rest
      (f :: o.1, o.2)

/-! ### Lemmas about the stable sorts -/

theorem insertDesc_perm {α : Type} (key : α → ℚ) (a : α) (l : List α) :
    List.Perm (insertDesc key a l) (a :: l) := by
  induction l with
  | nil => simp [insertDesc]
  | cons b t ih =>
    simp only [insertDesc]
    split
    · exact List.Perm.refl _
    · exact ((ih.cons b).trans (List.Perm.swap a b t))

theorem sortDesc_perm {α : Type} (key : α → ℚ) (l : List α) :
    List.Perm (sortDesc key l) l := by
  induction l with
  | nil => simp [sortDesc]
  | cons a t ih =>
    exact (insertDesc_perm key a (sortDesc key t)).trans (ih.cons a)

theorem mem_sortDesc {α : Type} {key : α → ℚ} {x : α} {l : List α} :
    x ∈ sortDesc key l ↔ x ∈ l :=
  (sortDesc_perm key l).mem_iff

theorem insertDesc_pairwise {α : Type} {key : α → ℚ} {a : α} {l : List α}
    (h : l.Pairwise fun x y => key y ≤ key x) :
    (insertDesc key a l).Pairwise fun x y => key y ≤ key x := by
  induction l with
  | nil => simp [insertDesc]
  | cons b t ih =>
    simp only [insertDesc]
    rcases h with _ | ⟨hb, ht⟩
    split
    · refine List.Pairwise.cons ?_ (List.Pairwise.cons hb ht)
      intro x hx
      rcases List.mem_cons.mp hx with rfl | hx2
      · assumption
      · exact le_trans (hb x hx2) (by assumption)
    · refine List.Pairwise.cons ?_ (ih ht)
      intro x hx
      rcases List.mem_cons.mp ((insertDesc_perm key a t).mem_iff.mp hx) with rfl | hxt
      · exact le_of_not_le (by assumption)
      · exact hb x hxt

theorem sortDesc_pairwise {α : Type} (key : α → ℚ) (l : List α) :
    (sortDesc key l).Pairwise fun x y => key y ≤ key x := by
  induction l with
  | nil => simp [sortDesc]
  | cons a t ih => exact insertDesc_pairwise ih

/-! ### The consecutive-increase streak -/

theorem streakRev_short (f : ℕ → ℚ) (l : List ℕ) (h : l.length < 2) :
    streakRev f l = 0 := by
  match l with
  | [] => rfl
  | [_] => rfl
  | a :: b :: t => simp at h; omega

/-- The backward walk counts adjacent increasing pairs from the front of
the reversed year list and stops at the first non-increase: the first
`streak + 1` entries are strictly decreasing in annual total, and the pair
right after the streak (when it exists) is a non-increase. -/
theorem streak_spec (f : ℕ → ℚ) (l : List ℕ) :
    List.Chain' (fun a b => f b < f a) (l.take (streakRev f l + 1)) ∧
    (∀ a b r', l.drop (streakRev f l) = a :: b :: r' → ¬ f b < f a) := by
  induction l with
  | nil => simp [streakRev]
  | cons y t ih =>
    cases t with
    | nil =>
      constructor
      · simp [streakRev]
      · intro a b r' heq
        simp [streakRev] at heq
    | cons z r =>
      by_cases hzy : f z < f y
      · have hs : streakRev f (y :: z :: r) = streakRev f (z :: r) + 1 := by
          simp [streakRev, hzy]
        constructor
        · rw [hs, List.take_succ_cons]
          refine List.Chain'.cons' ih.1 ?_
          intro b hb
          have hzc : (z :: r).take (streakRev f (z :: r) + 1) = z :: r.take (streakRev f (z :: r)) :=
            List.take_succ_cons
          rw [hzc] at hb
          simp at hb
          exact hb ▸ hzy
        · intro a b r' heq
          rw [hs, List.drop_succ_cons] at heq
          exact ih.2 a b r' heq
      · have hs : streakRev f (y :: z :: r) = 0 := by
          simp [streakRev, hzy]
        constructor
        · rw [hs]
          simp
        · intro a b r' heq
          rw [hs, List.drop_zero] at heq
          injection heq with h1 h2
          injection h2 with h2 h3
          rw [← h1, ← h2]
          exact hzy

/-- Annual dividend totals of the spec's streak example:
2021 pays 1.00, 2022 pays 1.10, 2023 pays 1.10, 2024 pays 1.20. -/
def divsC4 : List (Date × ℚ) :=
  [(⟨2021, 6, 1⟩, 1), (⟨2022, 6, 1⟩, 11/10), (⟨2023, 6, 1⟩, 11/10), (⟨2024, 6, 1⟩, 12/10)]

/-- A dividend history with a single year of data. -/
def divsOne : List (Date × ℚ) := [(⟨2021, 6, 1⟩, 1)]

/-- Claim C4: the consecutive-increase streak sums dividends per calendar
year and walks backward from the most recent adjacent year pair,
incrementing while the later year's total strictly exceeds the earlier
year's and stopping at the first non-increase; it is 0 with fewer than 2
distinct years; on annual totals 1.00, 1.10, 1.10, 1.20 it equals 1. -/
theorem claim_C4 (divs : List (Date × ℚ)) :
    ((sortedYearsOf divs).length < 2 → consecIncreasesOf divs = 0) ∧
    List.Chain'
      (fun a b => annualTotalOf (annualDivs divs) b < annualTotalOf (annualDivs divs) a)
      ((sortedYearsOf divs).reverse.take (consecIncreasesOf divs + 1)) ∧
    (∀ a b r', (sortedYearsOf divs).reverse.drop (consecIncreasesOf divs) = a :: b :: r' →
      ¬ annualTotalOf (annualDivs divs) b < annualTotalOf (annualDivs divs) a) ∧
    consecIncreasesOf divsC4 = 1 := by
  refine ⟨?_, (streak_spec _ _).1, (streak_spec _ _).2, ?_⟩
  · intro h
    exact streakRev_short _ _ (by simpa using h)
  · norm_num [consecIncreasesOf, sortedYearsOf, annualDivs, annualTotalOf, streakRev,
      sortAsc, insertAsc, insertAssoc, lookupA, divsC4, List.foldl]

/-- Witness for C4 at concrete inputs: one year of data gives streak 0,
the spec's example gives streak 1. -/
theorem claim_C4_witness : consecIncreasesOf divsOne = 0 ∧ consecIncreasesOf divsC4 = 1 :=
  ⟨(claim_C4 divsOne).1 (by
      norm_num [sortedYearsOf, annualDivs, sortAsc, insertAsc, insertAssoc, lookupA,
        divsOne, List.foldl]),
    (claim_C4 divsOne).2.2.2⟩

/-- Quote of the spec's yield example: a reported yield of 0.25 with the
dividend rate and the price unavailable. -/
def qC1 : Quote := ⟨some (1/4), none, none, none, none, none, none, none⟩

/-- A quote with a positive dividend rate 2 and price 50. -/
def qC1w : Quote := ⟨none, some 2, some 50, none, none, none, none, none⟩

/-- Claim C1: the normalized yield equals rate/price whenever both are
positive; otherwise a reported yield above 0.20 is divided by 100; a
reported yield of 0.25 with rate and price unavailable normalizes
to 0.0025. -/
theorem claim_C1 (q : Quote) :
    (0 < rateOf q → 0 < priceOf q → normYield q = rateOf q / priceOf q) ∧
    (rateOf q ≤ 0 ∨ priceOf q ≤ 0 → 1/5 < reportedYield q →
      normYield q = reportedYield q / 100) ∧
    normYield qC1 = 1/400 := by
  refine ⟨?_, ?_, ?_⟩
  · intro h1 h2
    simp [normYield, h1, h2]
  · intro h1 h2
    have hnot : ¬ (0 < rateOf q ∧ 0 < priceOf q) := by
      rcases h1 with h | h
      · exact fun hc => absurd hc.1 (not_lt.mpr h)
      · exact fun hc => absurd hc.2 (not_lt.mpr h)
    simp only [normYield]
    rw [if_neg hnot, if_pos h2]
  · norm_num [normYield, reportedYield, rateOf, priceOf, qC1]

/-- Witness for C1 at concrete inputs: rate 2 and price 50 give yield
2/50, and the spec's 0.25-percent-style example gives 0.0025. -/
theorem claim_C1_witness : normYield qC1w = 2 / 50 ∧ normYield qC1 = 1/400 :=
  ⟨(claim_C1 qC1w).1 (by norm_num [rateOf, qC1w]) (by norm_num [priceOf, qC1w]),
   (claim_C1 qC1w).2.2⟩

/-- Claim C2 evaluation: in the emission stage as coded, a failing write of
the first file aborts the run, so none of the other four files is written;
with no failure all five files are written.  This contradicts the claim
that a file-write failure leaves the remaining files still attempted. -/
theorem claim_C2 :
    runEmission (fun f => f == "dividend_data.json") emitFiles = ([], false) ∧
    runEmission (fun _ => false) emitFiles =
      (["dividend_data.json", "scatter_data.json", "total_return_data.json",
        "simulator_data.json", "calendar_data.json"], true) := by
  constructor
  · rfl
  · rfl

/-- A minimal record with the given ticker and yield, all other fields
defaulted. -/
def mkRec (t : String) (dy : ℚ) : Record :=
  ⟨t, t, 0, dy, 0, none, 0, "N/A", none, [], 0, []⟩

/-- Claim C8: the top-yield view has at most 30 entries and is a prefix of
the full collected list sorted descending by dividend yield; it is the
whole sorted list when there are at most 30 records. -/
theorem claim_C8 (rs : List Record) :
    (viewTop rs).length ≤ 30 ∧
    List.IsPrefix (viewTop rs) (yieldSorted rs) ∧
    List.Perm (yieldSorted rs) rs ∧
    (yieldSorted rs).Pairwise (fun a b => b.dividendYield ≤ a.dividendYield) ∧
    (rs.length ≤ 30 → viewTop rs = yieldSorted rs) := by
  refine ⟨?_, List.take_prefix _ _, sortDesc_perm _ _, sortDesc_pairwise _ _, ?_⟩
  · simp only [viewTop, List.length_take]
    exact min_le_left _ _
  · intro h
    apply List.take_of_length_le
    have hl : (yieldSorted rs).length = rs.length := (sortDesc_perm _ _).length_eq
    rw [hl]
    exact h

/-- Two concrete records for the C8 witness. -/
def rsC8 : List Record := [mkRec "A" 1, mkRec "B" 2]

/-- Witness for C8: a two-record list is at most 30 long, so its top-yield
view is the whole yield-sorted list. -/
theorem claim_C8_witness : viewTop rsC8 = yieldSorted rsC8 :=
  (claim_C8 rsC8).2.2.2.2 (by decide)

/-- Claim C5: the returns-ranked view is a permutation of the records with
a non-empty total-return map, is sorted descending by the 1y sort key, and
in it no record lacking a 1y entry precedes a record that has one —
provided every present 1y total return exceeds the -999 sentinel (the spec
calls it a sentinel far below any real return). -/
theorem claim_C5 (rs : List Record)
    (hs : ∀ r ∈ rs, ∀ p, lookupA "1y" r.totalReturns = some p → -999 < p.totalReturn) :
    List.Perm (viewReturns rs) (rs.filter fun r => !r.totalReturns.isEmpty) ∧
    (viewReturns rs).Pairwise (fun a b => key1y b ≤ key1y a) ∧
    (viewReturns rs).Pairwise
      (fun a b => lookupA "1y" a.totalReturns = none → lookupA "1y" b.totalReturns = none) := by
  have hmem : ∀ x, x ∈ viewReturns rs → x ∈ rs := by
    intro x hx
    have hx1 : x ∈ (yieldSorted rs).filter (fun r => !r.totalReturns.isEmpty) :=
      mem_sortDesc.mp hx
    exact mem_sortDesc.mp (List.mem_of_mem_filter hx1)
  refine ⟨?_, sortDesc_pairwise _ _, ?_⟩
  · exact (sortDesc_perm _ _).trans ((sortDesc_perm _ rs).filter _)
  · have h2 := sortDesc_pairwise key1y ((yieldSorted rs).filter fun r => !r.totalReturns.isEmpty)
    have h3 := List.Pairwise.and_mem.mp h2
    show List.Pairwise _ (sortDesc key1y ((yieldSorted rs).filter fun r => !r.totalReturns.isEmpty))
    refine h3.imp ?_
    rintro a b ⟨ha, hb, hr⟩ hna
    cases hlb : lookupA "1y" b.totalReturns with
    | none => rfl
    | some p =>
      exfalso
      have hp := hs b (hmem b hb) p hlb
      have hka : key1y a = -999 := by simp [key1y, hna]
      have hkb : key1y b = p.totalReturn := by simp [key1y, hlb]
      rw [hka, hkb] at hr
      linarith

/-- A concrete record holding a 1y total-return entry for the C5 witness. -/
def recB : Record :=
  ⟨"B", "B", 0, 2, 0, none, 0, "N/A", none, [], 0, [("1y", ⟨10, 2, 12⟩)]⟩

/-- Concrete collected list for the C5 witness: one record without
total-return data and one with a 1y entry of total return 12. -/
def rsC5 : List Record := [mkRec "A" 1, recB]

/-- Witness for C5 at a concrete collected list. -/
theorem claim_C5_witness :
    List.Perm (viewReturns rsC5) (rsC5.filter fun r => !r.totalReturns.isEmpty) ∧
    (viewReturns rsC5).Pairwise (fun a b => key1y b ≤ key1y a) ∧
    (viewReturns rsC5).Pairwise
      (fun a b => lookupA "1y" a.totalReturns = none → lookupA "1y" b.totalReturns = none) :=
  claim_C5 rsC5 (by
    intro r hr p hp
    rcases List.mem_cons.mp hr with rfl | hr2
    · simp [mkRec, lookupA] at hp
    · rcases List.mem_cons.mp hr2 with rfl | hr3
      · simp [recB, lookupA] at hp
        rw [← hp]
        norm_num
      · simp at hr3)

/-- A period's computation, spelled out: for a series with first row `f`
and last row `l` of at least two rows whose first close is nonzero, the
entry holds the rounded percent price change, the rounded in-range
dividend percent, and the rounded sum of the two unrounded components. -/
theorem computePeriod_formula (divs : List (Date × ℚ)) (h : List (Date × ℚ))
    (f l : Date × ℚ) (hf : h.head? = some f) (hl : h.getLast? = some l)
    (hlen : 2 ≤ h.length) (h0 : f.2 ≠ 0) :
    computePeriod divs h =
      some ⟨roundTo 2 ((l.2 - f.2) / f.2 * 100),
            roundTo 2 (((divs.filter fun p => f.1.leb p.1 && p.1.leb l.1).map Prod.snd).sum
              / f.2 * 100),
            roundTo 2 ((l.2 - f.2) / f.2 * 100 +
              ((divs.filter fun p => f.1.leb p.1 && p.1.leb l.1).map Prod.snd).sum
              / f.2 * 100)⟩ := by
  cases h with
  | nil => simp at hf
  | cons x t =>
    cases t with
    | nil => simp at hlen
    | cons y rest =>
      have hfx : f = x := by
        simp at hf
        exact hf.symm
      subst hfx
      have hcl : lastClose (f :: y :: rest) = l.2 := by
        rw [lastClose, hl]
        rfl
      have hcd : lastDate (f :: y :: rest) = l.1 := by
        rw [lastDate, hl]
        rfl
      simp only [computePeriod]
      rw [if_neg h0, hcl, hcd]

/-- The 1-year series of the spec's total-return example: closes 100 then
110 within 2024. -/
def hC7 : List (Date × ℚ) := [(⟨2024, 1, 2⟩, 100), (⟨2024, 12, 30⟩, 110)]

/-- The dividends of the spec's total-return example: a single in-range
payment of 2. -/
def dC7 : List (Date × ℚ) := [(⟨2024, 6, 10⟩, 2)]

/-- Claim C7: for each period among 1y, 3y, 5y independently, a series of
at least 2 points yields an entry with price-return (last−first)/first×100,
dividend-return (in-range dividend sum)/first×100, and total-return their
sum, each stored rounded to 2 decimals; and on the example series
100→110 with in-range dividends 2 the 1y entry is 10.00 + 2.00 = 12.00. -/
theorem claim_C7 (divs : List (Date × ℚ)) (p1 p3 p5 : Except String (List (Date × ℚ)))
    (h : List (Date × ℚ)) (f l : Date × ℚ) (hf : h.head? = some f)
    (hl : h.getLast? = some l) (hlen : 2 ≤ h.length) (h0 : f.2 ≠ 0) :
    (lookupA "1y" (totalReturnsOf divs (Except.ok h) p3 p5) =
      some ⟨roundTo 2 ((l.2 - f.2) / f.2 * 100),
            roundTo 2 (((divs.filter fun p => f.1.leb p.1 && p.1.leb l.1).map Prod.snd).sum
              / f.2 * 100),
            roundTo 2 ((l.2 - f.2) / f.2 * 100 +
              ((divs.filter fun p => f.1.leb p.1 && p.1.leb l.1).map Prod.snd).sum
              / f.2 * 100)⟩) ∧
    (lookupA "3y" (totalReturnsOf divs p1 (Except.ok h) p5) =
      some ⟨roundTo 2 ((l.2 - f.2) / f.2 * 100),
            roundTo 2 (((divs.filter fun p => f.1.leb p.1 && p.1.leb l.1).map Prod.snd).sum
              / f.2 * 100),
            roundTo 2 ((l.2 - f.2) / f.2 * 100 +
              ((divs.filter fun p => f.1.leb p.1 && p.1.leb l.1).map Prod.snd).sum
              / f.2 * 100)⟩) ∧
    (lookupA "5y" (totalReturnsOf divs p1 p3 (Except.ok h)) =
      some ⟨roundTo 2 ((l.2 - f.2) / f.2 * 100),
            roundTo 2 (((divs.filter fun p => f.1.leb p.1 && p.1.leb l.1).map Prod.snd).sum
              / f.2 * 100),
            roundTo 2 ((l.2 - f.2) / f.2 * 100 +
              ((divs.filter fun p => f.1.leb p.1 && p.1.leb l.1).map Prod.snd).sum
              / f.2 * 100)⟩) ∧
    lookupA "1y" (totalReturnsOf dC7 (Except.ok hC7) (Except.error "e") (Except.error "e")) =
      some ⟨10, 2, 12⟩ := by
  have hcp := computePeriod_formula divs h f l hf hl hlen h0
  refine ⟨?_, ?_, ?_, ?_⟩
  · simp [totalReturnsOf, List.foldr, lookupA, hcp]
  · cases p1 with
    | error e => simp [totalReturnsOf, List.foldr, lookupA, hcp]
    | ok h1 =>
      cases hc1 : computePeriod divs h1 with
      | none => simp [totalReturnsOf, List.foldr, lookupA, hcp, hc1]
      | some v1 => simp [totalReturnsOf, List.foldr, lookupA, hcp, hc1]
  · cases p1 with
    | error e =>
      cases p3 with
      | error e3 => simp [totalReturnsOf, List.foldr, lookupA, hcp]
      | ok h3 =>
        cases hc3 : computePeriod divs h3 with
        | none => simp [totalReturnsOf, List.foldr, lookupA, hcp, hc3]
        | some v3 => simp [totalReturnsOf, List.foldr, lookupA, hcp, hc3]
    | ok h1 =>
      cases hc1 : computePeriod divs h1 with
      | none =>
        cases p3 with
        | error e3 => simp [totalReturnsOf, List.foldr, lookupA, hcp, hc1]
        | ok h3 =>
          cases hc3 : computePeriod divs h3 with
          | none => simp [totalReturnsOf, List.foldr, lookupA, hcp, hc1, hc3]
          | some v3 => simp [totalReturnsOf, List.foldr, lookupA, hcp, hc1, hc3]
      | some v1 =>
        cases p3 with
        | error e3 => simp [totalReturnsOf, List.foldr, lookupA, hcp, hc1]
        | ok h3 =>
          cases hc3 : computePeriod divs h3 with
          | none => simp [totalReturnsOf, List.foldr, lookupA, hcp, hc1, hc3]
          | some v3 => simp [totalReturnsOf, List.foldr, lookupA, hcp, hc1, hc3]
  · norm_num [totalReturnsOf, computePeriod, lookupA, lastClose, lastDate, roundTo, rnd,
      Date.leb, dC7, hC7, List.filter, List.foldr]

/-- Claim C10: in every emitted record the payout field is null exactly
when the fetched payout ratio is missing, null, or exactly 0; otherwise it
is the fetched value times 100 rounded to 1 decimal. -/
theorem claim_C10 (sym : String) (t : TickerData) (r : Record) (he : HistEntry)
    (h : recOf sym t = some (r, he)) :
    (r.payout = none ↔ (t.info.payout = none ∨ t.info.payout = some 0)) ∧
    (∀ x, t.info.payout = some x → x ≠ 0 → r.payout = some (roundTo 1 (x * 100))) := by
  rw [recOf] at h
  split at h
  · exact absurd h (by simp)
  · injection h with h1
    cases h1
    constructor
    · constructor
      · intro hn
        by_cases hz : t.info.payout.getD 0 = 0
        · cases hp : t.info.payout with
          | none => exact Or.inl rfl
          | some x =>
            right
            rw [hp] at hz
            simp at hz
            rw [hz]
        · simp [hz] at hn
      · intro hor
        have hz : t.info.payout.getD 0 = 0 := by
          rcases hor with hp | hp
          · rw [hp]
            rfl
          · rw [hp]
            rfl
        simp [hz]
    · intro x hx hxne
      have hgd : t.info.payout.getD 0 = x := by
        rw [hx]
        rfl
      simp [hgd, hxne]

/-- Quote for the C10 witness: rate 1, price 100, payout ratio exactly 0. -/
def qC10 : Quote := ⟨none, some 1, some 100, none, some 0, none, none, none⟩

/-- Ticker data for the C10 witness. -/
def tC10 : TickerData :=
  ⟨qC10, [], [], [], Except.error "e", Except.error "e", Except.error "e"⟩

/-- The record `recOf` derives from `tC10`. -/
def rC10 : Record := ⟨"T", "T", 100, 1, 1, none, 0, "N/A", none, [], 0, []⟩

/-- The history entry `recOf` derives from `tC10`. -/
def heC10 : HistEntry := ⟨[], []⟩

/-- Witness for C10: a fetched payout ratio of exactly 0 is emitted as
null. -/
theorem claim_C10_witness : rC10.payout = none :=
  ((claim_C10 "T" tC10 rC10 heC10 (by
    norm_num [recOf, normYield, reportedYield, rateOf, priceOf, qC10, tC10, rC10, heC10,
      roundTo, rnd, yearReturnOf, monthlyOf, annualDivs, annualTotalOf, sortedYearsOf,
      consecIncreasesOf, streakRev, divMonthsOf, divHistoryOf, last60, sortAsc, insertAsc,
      totalReturnsOf, lookupA, insertAssoc, List.foldr, List.foldl, List.dedup])).1).mpr
    (Or.inr rfl)

/-! ### Factorization of the main loop -/

theorem runLoop_eq_parts (items : List (String × Except String TickerData)) :
    ∀ b h l, List.foldl step ⟨b, h, l⟩ items =
      ⟨b ++ basicsOf items, histOf h items, l ++ logOf items⟩ := by
  induction items with
  | nil =>
    intro b h l
    simp [basicsOf, histOf, logOf]
  | cons it rest ih =>
    intro b h l
    obtain ⟨sym, d⟩ := it
    cases d with
    | error e =>
      have hstep : step ⟨b, h, l⟩ (sym, Except.error e) =
          ⟨b, h, l ++ ["  Error " ++ sym ++ ": " ++ e]⟩ := rfl
      simp only [List.foldl, hstep]
      rw [ih]
      simp [basicsOf, histOf, logOf]
    | ok t =>
      cases hr : recOf sym t with
      | none =>
        have hstep : step ⟨b, h, l⟩ (sym, Except.ok t) = ⟨b, h, l⟩ := by
          simp [step, hr]
        simp only [List.foldl, hstep]
        rw [ih]
        simp [basicsOf, histOf, logOf, hr]
      | some p =>
        obtain ⟨r, he⟩ := p
        have hstep : step ⟨b, h, l⟩ (sym, Except.ok t) =
            ⟨b ++ [r], insertAssoc sym he h, l⟩ := by
          simp [step, hr]
        simp only [List.foldl, hstep]
        rw [ih]
        simp [basicsOf, histOf, logOf, hr]

theorem runLoop_parts (items : List (String × Except String TickerData)) :
    runLoop items = ⟨basicsOf items, histOf [] items, logOf items⟩ := by
  rw [runLoop]
  rw [runLoop_eq_parts items [] [] []]
  simp

theorem basicsOf_append (xs ys : List (String × Except String TickerData)) :
    basicsOf (xs ++ ys) = basicsOf xs ++ basicsOf ys := by
  induction xs with
  | nil => simp [basicsOf]
  | cons it rest ih =>
    obtain ⟨sym, d⟩ := it
    cases d with
    | error e => simp [basicsOf, ih]
    | ok t => cases hr : recOf sym t <;> simp [basicsOf, hr, ih]

theorem logOf_append (xs ys : List (String × Except String TickerData)) :
    logOf (xs ++ ys) = logOf xs ++ logOf ys := by
  induction xs with
  | nil => simp [logOf]
  | cons it rest ih =>
    obtain ⟨sym, d⟩ := it
    cases d with
    | error e => simp [logOf, ih]
    | ok t => simp [logOf, ih]

theorem histOf_append (xs ys : List (String × Except String TickerData)) :
    ∀ h, histOf h (xs ++ ys) = histOf (histOf h xs) ys := by
  induction xs with
  | nil => intro h; simp [histOf]
  | cons it rest ih =>
    intro h
    obtain ⟨sym, d⟩ := it
    cases d with
    | error e => simp [histOf, ih]
    | ok t => cases hr : recOf sym t <;> simp [histOf, hr, ih]

/-! ### Membership lemmas for the collected outputs -/

theorem recOf_ticker (sym : String) (t : TickerData) (r : Record) (he : HistEntry)
    (h : recOf sym t = some (r, he)) : r.ticker = sym := by
  rw [recOf] at h
  split at h
  · exact absurd h (by simp)
  · injection h with h1
    cases h1
    rfl

theorem recOf_none_of_yield (sym : String) (t : TickerData)
    (h : normYield t.info ≤ 0) : recOf sym t = none := by
  rw [recOf]
  exact if_pos h

theorem mem_basicsOf (items : List (String × Except String TickerData)) (r : Record)
    (hr : r ∈ basicsOf items) :
    ∃ sym t he, (sym, Except.ok t) ∈ items ∧ recOf sym t = some (r, he) := by
  induction items with
  | nil => simp [basicsOf] at hr
  | cons it rest ih =>
    obtain ⟨sym, d⟩ := it
    cases d with
    | error e =>
      obtain ⟨sym', t', he', hmem, hrec⟩ := ih (by simpa [basicsOf] using hr)
      exact ⟨sym', t', he', List.mem_cons_of_mem _ hmem, hrec⟩
    | ok t =>
      cases hrec : recOf sym t with
      | none =>
        obtain ⟨sym', t', he', hmem, hrec'⟩ := ih (by simpa [basicsOf, hrec] using hr)
        exact ⟨sym', t', he', List.mem_cons_of_mem _ hmem, hrec'⟩
      | some p =>
        obtain ⟨r0, he0⟩ := p
        rw [show basicsOf ((sym, Except.ok t) :: rest) = r0 :: basicsOf rest from by
          simp [basicsOf, hrec]] at hr
        rcases List.mem_cons.mp hr with rfl | hr2
        · exact ⟨sym, t, he0, List.mem_cons_self _ _, hrec⟩
        · obtain ⟨sym', t', he', hmem, hrec'⟩ := ih hr2
          exact ⟨sym', t', he', List.mem_cons_of_mem _ hmem, hrec'⟩

theorem insertAssoc_keys {α : Type} (k : String) (v : α) (l : List (String × α)) (s : String) :
    s ∈ (insertAssoc k v l).map Prod.fst ↔ s = k ∨ s ∈ l.map Prod.fst := by
  induction l with
  | nil => simp [insertAssoc, eq_comm]
  | cons p rest ih =>
    obtain ⟨k', v'⟩ := p
    by_cases hk : k' = k
    · subst hk
      simp [insertAssoc]
    · simp [insertAssoc, hk, ih]
      tauto

theorem mem_keys_histOf (items : List (String × Except String TickerData)) :
    ∀ h s, s ∈ (histOf h items).map Prod.fst ↔
      s ∈ h.map Prod.fst ∨ s ∈ (basicsOf items).map Record.ticker := by
  induction items with
  | nil =>
    intro h s
    simp [histOf, basicsOf]
  | cons it rest ih =>
    intro h s
    obtain ⟨sym, d⟩ := it
    cases d with
    | error e => simp [histOf, basicsOf, ih]
    | ok t =>
      cases hr : recOf sym t with
      | none => simp [histOf, basicsOf, hr, ih]
      | some p =>
        obtain ⟨r, he⟩ := p
        have ht := recOf_ticker sym t r he hr
        rw [show histOf h ((sym, Except.ok t) :: rest) =
            histOf (insertAssoc sym he h) rest from by simp [histOf, hr]]
        rw [show basicsOf ((sym, Except.ok t) :: rest) = r :: basicsOf rest from by
          simp [basicsOf, hr]]
        rw [ih, insertAssoc_keys]
        simp [ht]
        tauto

theorem foldl_names_keys (l : List Record) :
    ∀ m s, s ∈ (l.foldl (fun m r => insertAssoc r.ticker r.name m) m).map Prod.fst ↔
      s ∈ m.map Prod.fst ∨ s ∈ l.map Record.ticker := by
  induction l with
  | nil =>
    intro m s
    simp
  | cons r rest ih =>
    intro m s
    simp only [List.foldl, List.map_cons, List.mem_cons]
    rw [ih, insertAssoc_keys]
    tauto

/-- Claim C3: a ticker whose normalized dividend yield is ≤ 0 contributes
no record to the collected list and appears in none of the five output
views: not in the top-yield, scatter, returns-ranked or calendar stocks,
not in the simulator's tickers, names or histories. -/
theorem claim_C3 (items : List (String × Except String TickerData)) (s : String)
    (hs : ∀ t, (s, Except.ok t) ∈ items → normYield t.info ≤ 0) :
    (∀ r ∈ (runLoop items).basics, r.ticker ≠ s) ∧
    (∀ r ∈ viewTop (runLoop items).basics, r.ticker ≠ s) ∧
    (∀ r ∈ viewScatter (runLoop items).basics, r.ticker ≠ s) ∧
    (∀ r ∈ viewReturns (runLoop items).basics, r.ticker ≠ s) ∧
    (∀ r ∈ viewCalendar (runLoop items).basics, r.ticker ≠ s) ∧
    s ∉ simTickers (runLoop items).basics ∧
    s ∉ (simNames (runLoop items).basics).map Prod.fst ∧
    s ∉ (runLoop items).histories.map Prod.fst := by
  have hb : (runLoop items).basics = basicsOf items := by rw [runLoop_parts]
  have hh : (runLoop items).histories = histOf [] items := by rw [runLoop_parts]
  have hbase : ∀ r ∈ (runLoop items).basics, r.ticker ≠ s := by
    rw [hb]
    intro r hr heq
    obtain ⟨sym, t, he, hmem, hrec⟩ := mem_basicsOf items r hr
    have hsym : sym = s := by rw [← heq, recOf_ticker sym t r he hrec]
    subst hsym
    rw [recOf_none_of_yield sym t (hs t hmem)] at hrec
    exact Option.noConfusion hrec
  have hsorted : ∀ r ∈ yieldSorted (runLoop items).basics, r.ticker ≠ s :=
    fun r hr => hbase r (mem_sortDesc.mp hr)
  refine ⟨hbase, ?_, ?_, ?_, ?_, ?_, ?_, ?_⟩
  · exact fun r hr => hsorted r (List.mem_of_mem_take hr)
  · exact fun r hr => hsorted r (List.mem_of_mem_filter hr)
  · exact fun r hr =>
      hsorted r (List.mem_of_mem_filter (mem_sortDesc.mp hr))
  · exact fun r hr => hsorted r (List.mem_of_mem_filter hr)
  · intro hmem
    obtain ⟨r, hr, hrt⟩ := List.mem_map.mp hmem
    exact hsorted r hr hrt
  · intro hmem
    rcases (foldl_names_keys _ _ _).mp hmem with hnil | hmt
    · simp at hnil
    · obtain ⟨r, hr, hrt⟩ := List.mem_map.mp hmt
      exact hsorted r hr hrt
  · intro hmem
    rw [hh] at hmem
    rcases (mem_keys_histOf items [] s).mp hmem with hnil | hmt
    · simp at hnil
    · obtain ⟨r, hr, hrt⟩ := List.mem_map.mp hmt
      exact hbase r (hb ▸ hr) hrt

/-- Ticker data whose quote has no positive yield information: its
normalized yield is 0. -/
def tZero : TickerData :=
  ⟨⟨none, none, none, none, none, none, none, none⟩, [], [], [],
   Except.error "e", Except.error "e", Except.error "e"⟩

/-- Concrete run input for the C3 witness: ticker Z has yield ≤ 0,
ticker T is a normal dividend payer. -/
def itemsC3 : List (String × Except String TickerData) :=
  [("Z", Except.ok tZero), ("T", Except.ok tC10)]

/-- Witness for C3 at a concrete run: the zero-yield ticker Z is keyed
nowhere in the simulator histories. -/
theorem claim_C3_witness : "Z" ∉ (runLoop itemsC3).histories.map Prod.fst :=
  (claim_C3 itemsC3 "Z" (by
    intro t ht
    simp [itemsC3] at ht
    subst ht
    norm_num [normYield, reportedYield, rateOf, priceOf, tZero])).2.2.2.2.2.2.2

/-- Claim C6: an exception while processing one ticker is caught: the
collected list, the histories and every output view are the same as in the
run without that ticker, and a log line containing the ticker symbol is
printed. -/
theorem claim_C6 (pre post : List (String × Except String TickerData)) (sym e : String) :
    (runLoop (pre ++ (sym, Except.error e) :: post)).basics =
      (runLoop (pre ++ post)).basics ∧
    (runLoop (pre ++ (sym, Except.error e) :: post)).histories =
      (runLoop (pre ++ post)).histories ∧
    ("  Error " ++ sym ++ ": " ++ e) ∈ (runLoop (pre ++ (sym, Except.error e) :: post)).log ∧
    (∃ a b, "  Error " ++ sym ++ ": " ++ e = a ++ sym ++ b) ∧
    viewTop (runLoop (pre ++ (sym, Except.error e) :: post)).basics =
      viewTop (runLoop (pre ++ post)).basics ∧
    viewScatter (runLoop (pre ++ (sym, Except.error e) :: post)).basics =
      viewScatter (runLoop (pre ++ post)).basics ∧
    viewReturns (runLoop (pre ++ (sym, Except.error e) :: post)).basics =
      viewReturns (runLoop (pre ++ post)).basics ∧
    viewCalendar (runLoop (pre ++ (sym, Except.error e) :: post)).basics =
      viewCalendar (runLoop (pre ++ post)).basics ∧
    simTickers (runLoop (pre ++ (sym, Except.error e) :: post)).basics =
      simTickers (runLoop (pre ++ post)).basics ∧
    simNames (runLoop (pre ++ (sym, Except.error e) :: post)).basics =
      simNames (runLoop (pre ++ post)).basics := by
  have hb : (runLoop (pre ++ (sym, Except.error e) :: post)).basics =
      (runLoop (pre ++ post)).basics := by
    rw [runLoop_parts, runLoop_parts]
    show basicsOf (pre ++ (sym, Except.error e) :: post) = basicsOf (pre ++ post)
    rw [basicsOf_append, basicsOf_append]
    simp [basicsOf]
  have hh : (runLoop (pre ++ (sym, Except.error e) :: post)).histories =
      (runLoop (pre ++ post)).histories := by
    rw [runLoop_parts, runLoop_parts]
    show histOf [] (pre ++ (sym, Except.error e) :: post) = histOf [] (pre ++ post)
    rw [histOf_append, histOf_append]
    simp [histOf]
  have hlog : (runLoop (pre ++ (sym, Except.error e) :: post)).log =
      logOf pre ++ ("  Error " ++ sym ++ ": " ++ e) :: logOf post := by
    rw [runLoop_parts]
    show logOf (pre ++ (sym, Except.error e) :: post) = _
    rw [logOf_append]
    simp [logOf]
  refine ⟨hb, hh, ?_, ⟨"  Error ", ": " ++ e, ?_⟩,
    by rw [hb], by rw [hb], by rw [hb], by rw [hb], by rw [hb], by rw [hb]⟩
  · rw [hlog]
    simp
  · rw [String.append_assoc]

/-- Claim C9: the symbols keyed in the simulator histories are exactly the
ticker symbols of the collected basic records, and hence exactly those of
the simulator tickers list and names lookup. -/
theorem claim_C9 (items : List (String × Except String TickerData)) :
    (∀ s, s ∈ (runLoop items).histories.map Prod.fst ↔
      s ∈ (runLoop items).basics.map Record.ticker) ∧
    (∀ s, s ∈ (runLoop items).histories.map Prod.fst ↔
      s ∈ simTickers (runLoop items).basics) ∧
    (∀ s, s ∈ (runLoop items).histories.map Prod.fst ↔
      s ∈ (simNames (runLoop items).basics).map Prod.fst) := by
  have hb : (runLoop items).basics = basicsOf items := by rw [runLoop_parts]
  have hh : (runLoop items).histories = histOf [] items := by rw [runLoop_parts]
  have h1 : ∀ s, s ∈ (runLoop items).histories.map Prod.fst ↔
      s ∈ (runLoop items).basics.map Record.ticker := by
    intro s
    rw [hh, hb, mem_keys_histOf]
    simp
  refine ⟨h1, ?_, ?_⟩
  · intro s
    rw [h1 s]
    exact (((sortDesc_perm (fun r => r.dividendYield) (runLoop items).basics).map
      (fun r => r.ticker)).mem_iff).symm
  · intro s
    rw [h1 s]
    constructor
    · intro hm
      refine (foldl_names_keys _ _ _).mpr (Or.inr ?_)
      exact ((sortDesc_perm (fun r => r.dividendYield) (runLoop items).basics).map
        (fun r => r.ticker)).mem_iff.mpr hm
    · intro hm
      rcases (foldl_names_keys _ _ _).mp hm with hnil | hmt
      · simp at hnil
      · exact ((sortDesc_perm (fun r => r.dividendYield) (runLoop items).basics).map
          (fun r => r.ticker)).mem_iff.mp hmt

/-- Witness for C7 at the spec's example: series 100→110 with an in-range
dividend of 2 yields the 1y entry 10.00 + 2.00 = 12.00. -/
theorem claim_C7_witness :
    lookupA "1y" (totalReturnsOf dC7 (Except.ok hC7) (Except.error "e") (Except.error "e")) =
      some ⟨10, 2, 12⟩ :=
  (claim_C7 dC7 (Except.error "e") (Except.error "e") (Except.error "e") hC7
    (⟨2024, 1, 2⟩, 100) (⟨2024, 12, 30⟩, 110) rfl rfl (by norm_num [hC7])
    (by norm_num)).2.2.2
